import Mathlib

/-!
Verification of the eBay sold-listings price scraper (src/scraper.py).

Python strings are embedded as `List Char`; Python floats as `ℚ` (the price
texts and arithmetic in the pipeline are exact decimals, so rational
arithmetic matches the float computation on all values considered here);
raised Python exceptions as the `Except PyErr` monad, where an uncaught
exception propagates outward exactly as in the source.  External
collaborators (requests + BeautifulSoup) are abstracted as a `World` oracle
that answers each (keywords, page) fetch with either a raised transport
error, a parsed document lacking the results container, or the list of
listing nodes found in the container.
-/

attribute [local semireducible] Rat.mul Rat.add Rat.sub Rat.inv

/-- Python string, embedded as its list of characters. -/
abbrev Str := List Char

/-- Characters of a string literal. -/
def chars (s : String) : Str := s.toList

/-- The Python exception kinds that the pipeline can raise:
`ValueError` (from `float(...)`), `AttributeError` (attribute access on
`None` after a failed `find`), `TypeError` (`None[...]` subscription for a
missing link), and a raised transport error from `requests.get`. -/
inductive PyErr where
  | valueError : PyErr
  | attributeError : PyErr
  | typeError : PyErr
  | requestError : PyErr
deriving DecidableEq

deriving instance DecidableEq for Except

/-- Python `str.lower()` (ASCII-adequate). -/
def pyLower (s : Str) : Str := s.map Char.toLower

/-- Python `str.strip()`: remove leading and trailing whitespace. -/
def pyStrip (s : Str) : Str :=
  ((s.dropWhile Char.isWhitespace).reverse.dropWhile Char.isWhitespace).reverse

/-- Worker for `splitWs`; `acc` holds the current token reversed. -/
def splitWsAux : Str → Str → List Str
  | [], [] => []
  | [], acc => [acc.reverse]
  | c :: cs, acc =>
    if c.isWhitespace then
      match acc with
      | [] => splitWsAux cs []
      | _ :: _ => acc.reverse :: splitWsAux cs []
    else splitWsAux cs (c :: acc)

/-- Python `str.split()` with no argument: split on runs of whitespace,
discarding empty tokens. -/
def splitWs (s : Str) : List Str := splitWsAux s []

/-- Python `.replace("Sold", "")` as used on the sold-date text in
`parse_listing` (src/scraper.py line 22): delete every occurrence of
`"Sold"`, scanning left to right. -/
def removeSold : Str → Str
  | 'S' :: 'o' :: 'l' :: 'd' :: rest => removeSold rest
  | c :: rest => c :: removeSold rest
  | [] => []

/-- Python `price.replace("$", "").replace(",", "")`
(src/scraper.py line 39). -/
def stripMoney (s : Str) : Str :=
  s.filter (fun c => decide (c ≠ '$' ∧ c ≠ ','))

/-- Does the string begin with the two characters `to`? -/
def startsWithTo : Str → Bool
  | 't' :: 'o' :: _ => true
  | _ => false

/-- Python `'to' in price`: substring search (src/scraper.py line 40). -/
def hasTo : Str → Bool
  | [] => false
  | c :: rest => startsWithTo (c :: rest) || hasTo rest

/-- The token `to` that the range branch of `process_price` filters out. -/
def toTok : Str := ['t', 'o']

/-- Numeric value of a digit string. -/
def digitsVal (ds : Str) : ℕ := ds.foldl (fun a c => 10 * a + (c.toNat - 48)) 0

/-- Value of an unsigned decimal literal `digits[.digits]` (at least one
digit), as accepted by Python `float`; `none` on any other shape. -/
def parseMantissa (s : Str) : Option ℚ :=
  let intPart := s.takeWhile Char.isDigit
  let rest := s.dropWhile Char.isDigit
  match rest with
  | [] => if intPart.isEmpty then none else some ((digitsVal intPart : ℚ))
  | '.' :: frac =>
    if (intPart.isEmpty && frac.isEmpty) || !(frac.all Char.isDigit) then none
    else some ((digitsVal intPart : ℚ) + (digitsVal frac : ℚ) / ((10 ^ frac.length : ℕ) : ℚ))
  | _ => none

/-- Python builtin `float(s)` on the decimal forms that occur in price
texts: surrounding whitespace stripped, an optional sign, then a decimal
literal; anything else raises `ValueError`.  (The builtin additionally
accepts exponent/inf/nan forms; none of those shapes arise from the digit
strings this scraper feeds it, and they are modelled as failures.) -/
def parseFloat (s : Str) : Except PyErr ℚ :=
  match pyStrip s with
  | '-' :: r =>
    match parseMantissa r with
    | some v => .ok (-v)
    | none => .error .valueError
  | '+' :: r =>
    match parseMantissa r with
    | some v => .ok v
    | none => .error .valueError
  | r =>
    match parseMantissa r with
    | some v => .ok v
    | none => .error .valueError

/-- Floor of a rational (denominators are positive, so floored integer
division of numerator by denominator). -/
def ratFloor (q : ℚ) : ℤ := Int.fdiv q.num (q.den : ℤ)

/-- Python `round(x, 2)`: round to 2 decimal places, ties to even. -/
def round2 (q : ℚ) : ℚ :=
  let s : ℚ := q * 100
  let n : ℤ := ratFloor s
  let r : ℚ := s - (n : ℚ)
  let k : ℤ :=
    if r < 1 / 2 then n
    else if (1 / 2 : ℚ) < r then n + 1
    else if n % 2 = 0 then n else n + 1
  (k : ℚ) / 100

/-- Python `sum(float(num) for num in toks)`: the first `float` failure
raises out of the sum. -/
def sumFloats : List Str → Except PyErr ℚ
  | [] => .ok 0
  | t :: ts =>
    match parseFloat t with
    | .error e => .error e
    | .ok v =>
      match sumFloats ts with
      | .error e => .error e
      | .ok acc => .ok (v + acc)

/-- Embeds `process_price` (src/scraper.py lines 37-42): strip `$` and `,`;
if the substring `to` occurs, sum the floats of all whitespace tokens other
than `to` and halve; finally round the float value to 2 decimal places. -/
def process_price (price : Str) : Except PyErr ℚ :=
  let p := stripMoney price
  if hasTo p then
    match sumFloats ((splitWs p).filter (fun t => decide (t ≠ toTok))) with
    | .error e => .error e
    | .ok s => .ok (round2 (s / 2))
  else
    match parseFloat p with
    | .error e => .error e
    | .ok v => .ok (round2 v)

/-- Embeds `is_valid_title` (src/scraper.py lines 28-34): every search
keyword must occur verbatim among the whitespace tokens of the title. -/
def is_valid_title (title : Str) (search_keywords : List Str) : Bool :=
  let title_words := splitWs title
  search_keywords.all (fun kw => decide (kw ∈ title_words))

/-- A listing node as the extractor sees it.  Each field is the result of
the corresponding BeautifulSoup lookup inside `parse_listing`
(src/scraper.py lines 18-25): `none` means the sub-element (or, for the
link, its `href` text) is absent, so the Python attribute access or
subscription on `None` raises. -/
structure Item where
  titleTag : Option Str
  priceTag : Option Str
  dateTag : Option Str
  linkAttr : Option Str
  subtitleTag : Option Str
deriving DecidableEq

/-- Embeds `parse_listing` (src/scraper.py lines 18-25).  A missing title,
price or date raises `AttributeError` (`None.text` / `None.string`); a
missing link raises `TypeError` (`None['href']`).  The condition is
optional and falls back to `"Unknown"`.  The sold-date text keeps its raw
form: only the `"Sold"` prefix is replaced and whitespace stripped; the
link is truncated at the first `?`. -/
def parse_listing (item : Item) : Except PyErr (Str × Str × Str × Str × Str) :=
  match item.titleTag with
  | none => .error .attributeError
  | some t =>
    match item.priceTag with
    | none => .error .attributeError
    | some pr =>
      match item.dateTag with
      | none => .error .attributeError
      | some dt =>
        match item.linkAttr with
        | none => .error .typeError
        | some lk =>
          let condition :=
            match item.subtitleTag with
            | some st => pyLower st
            | none => chars "Unknown"
          .ok (pyLower t, pr, pyStrip (removeSold dt),
               lk.takeWhile (fun c => decide (c ≠ '?')), condition)

/-- The per-term accumulator `month_price_dict`: a Python dict from raw
date text to the list of admitted prices, in insertion order. -/
abbrev Dict := List (Str × List ℚ)

/-- Lines 62-64 of src/scraper.py: create the date's bucket on first use,
then append the price to it. -/
def insertPrice : Dict → Str → ℚ → Dict
  | [], d, p => [(d, [p])]
  | (k, ps) :: rest, d, p =>
    if k = d then (k, ps ++ [p]) :: rest else (k, ps) :: insertPrice rest d p

/-- Python dict lookup on an insertion-ordered association list. -/
def lookupD {α : Type} : List (Str × α) → Str → Option α
  | [], _ => none
  | (k, v) :: rest, d => if k = d then some v else lookupD rest d

/-- The body of the per-listing `try` block (src/scraper.py lines 57-64):
parse the listing, check the title, normalize the price, and admit the
observation only when `10 < price_value < 900`.  Any raised exception
escapes as `Except.error`. -/
def tryItem (kw : List Str) (item : Item) (dict : Dict) : Except PyErr Dict :=
  match parse_listing item with
  | .error e => .error e
  | .ok (title, price, date, _, _) =>
    if is_valid_title title kw then
      match process_price price with
      | .error e => .error e
      | .ok price_value =>
        if 10 < price_value ∧ price_value < 900 then
          .ok (insertPrice dict date price_value)
        else .ok dict
    else .ok dict

/-- The `try ... except ValueError: continue` wrapper (src/scraper.py
lines 56-66): only `ValueError` is caught; any other exception keeps
propagating. -/
def handleItem (kw : List Str) (item : Item) (dict : Dict) : Except PyErr Dict :=
  match tryItem kw item dict with
  | .error .valueError => .ok dict
  | .error e => .error e
  | .ok d2 => .ok d2

/-- The `for item in listings` loop (src/scraper.py lines 55-66); an
uncaught exception aborts the loop. -/
def processItems (kw : List Str) : List Item → Dict → Except PyErr Dict
  | [], dict => .ok dict
  | item :: rest, dict =>
    match handleItem kw item dict with
    | .error e => .error e
    | .ok d2 => processItems kw rest d2

/-- Abstraction of the network and HTML collaborators behind
`fetch_listings`: for given search keywords and page number, either a
raised transport error, a parsed document without the results container
(`doc.find` returned `None`), or the listing nodes found in the
container. -/
abbrev World := List Str → ℕ → Except PyErr (Option (List Item))

/-- Embeds `fetch_listings` (src/scraper.py lines 7-15): build the query
from the keywords and ask the collaborators for that results page. -/
def fetch_listings (world : World) (search_keywords : List Str) (page_number : ℕ) :
    Except PyErr (Option (List Item)) :=
  world search_keywords page_number

/-- One iteration of the page loop (src/scraper.py lines 49-66): a raised
fetch error propagates; a page without the results container is skipped
(`continue`); otherwise its listings are processed in order. -/
def pageStep (world : World) (kw : List Str) (dict : Dict) (page : ℕ) :
    Except PyErr Dict :=
  match fetch_listings world kw page with
  | .error e => .error e
  | .ok none => .ok dict
  | .ok (some items) => processItems kw items dict

/-- The page loop over a list of page numbers; an uncaught exception
aborts the remaining pages. -/
def pagesLoop (world : World) (kw : List Str) : List ℕ → Dict → Except PyErr Dict
  | [], dict => .ok dict
  | p :: rest, dict =>
    match pageStep world kw dict p with
    | .error e => .error e
    | .ok d2 => pagesLoop world kw rest d2

/-- Embeds `scrape_ebay_for_term` (src/scraper.py lines 45-66): lower-case
and split the term into keywords, then walk pages 1 through 13
(`range(1, 14)`), feeding admitted observations into the dict. -/
def scrape_ebay_for_term (world : World) (search_term : Str) (dict : Dict) :
    Except PyErr Dict :=
  pagesLoop world (splitWs (pyLower search_term)) (List.range' 1 13) dict

/-- Lines 92-95 of src/scraper.py: per-date average of the accumulated
prices, rounded to 2 decimal places, keys kept in insertion order. -/
def dailyAverages (dict : Dict) : List (Str × ℚ) :=
  dict.map (fun e => (e.1, round2 (e.2.sum / (e.2.length : ℚ))))

/-- Feeding a stream of (date, price) observations through the dict
accumulation of lines 62-64, in order. -/
def accumObs (obs : List (Str × ℚ)) (dict : Dict) : Dict :=
  obs.foldl (fun dc o => insertPrice dc o.1 o.2) dict

/-- The prices a stream of observations carries for one date, in order. -/
def pricesOf (obs : List (Str × ℚ)) (d : Str) : List ℚ :=
  (obs.filter (fun o => decide (o.1 = d))).map Prod.snd

/-- Python string comparison: lexicographic by code point. -/
def strLeB : Str → Str → Bool
  | [], _ => true
  | _ :: _, [] => false
  | a :: as, b :: bs => if a < b then true else if b < a then false else strLeB as bs

/-- The ordering relation Python `sorted` uses on strings. -/
def StrLe (a b : Str) : Prop := strLeB a b = true

instance : DecidableRel StrLe :=
fun a b => inferInstanceAs (Decidable (strLeB a b = true))

/-- Line 103 of src/scraper.py: `sorted({date for averages in
summary_data.values() for date in averages.keys()})` — the deduplicated
union of every term's raw date-text keys, sorted as Python strings. -/
def allDates (summary : List (Str × List (Str × ℚ))) : List Str :=
  List.insertionSort StrLe (summary.flatMap (fun e => e.2.map Prod.fst)).dedup

/-- A CSV cell of the summary file: the term name, a formatted average, or
the empty string `daily_averages.get(date, "")` falls back to. -/
inductive Cell where
  | text : Str → Cell
  | num : ℚ → Cell
  | blank : Cell
deriving DecidableEq

/-- The written summary artifact: header row and one row per term
(src/scraper.py lines 99-110). -/
structure Table where
  header : List Str
  rows : List (List Cell)
deriving DecidableEq

/-- Lines 108-110 of src/scraper.py: a term's output row. -/
def rowFor (dates : List Str) (term : Str) (avgs : List (Str × ℚ)) : List Cell :=
  Cell.text term ::
    dates.map (fun d =>
      match lookupD avgs d with
      | some v => Cell.num v
      | none => Cell.blank)

/-- Lines 99-110 of src/scraper.py: assemble the summary table. -/
def buildTable (summary : List (Str × List (Str × ℚ))) : Table :=
  { header := chars "CPU Name" :: allDates summary,
    rows := summary.map (fun e => rowFor (allDates summary) e.1 e.2) }

/-- Python dict assignment `summary_data[search_term] = daily_averages`:
replace in place if the key exists, else append. -/
def setKey {α : Type} : List (Str × α) → Str → α → List (Str × α)
  | [], k, v => [(k, v)]
  | (k2, v2) :: rest, k, v =>
    if k2 = k then (k2, v) :: rest else (k2, v2) :: setKey rest k v

/-- Lines 83-86 of src/scraper.py: keep the stripped first cell of each
non-empty CSV row, dropping blank terms. -/
def termsOf (rows : List (List Str)) : List Str :=
  rows.filterMap (fun row =>
    match row with
    | [] => none
    | cell :: _ =>
      let t := pyStrip cell
      if t.isEmpty then none else some t)

/-- The per-term loop of `main` (src/scraper.py lines 83-96): scrape each
term into a fresh dict, reduce it to daily averages, and record it under
the term; an uncaught exception aborts the whole loop. -/
def processTerms (world : World) :
    List Str → List (Str × List (Str × ℚ)) → Except PyErr (List (Str × List (Str × ℚ)))
  | [], summary => .ok summary
  | term :: rest, summary =>
    match scrape_ebay_for_term world term [] with
    | .error e => .error e
    | .ok dict => processTerms world rest (setKey summary term (dailyAverages dict))

/-- The run's externally visible inputs: whether `search_terms.csv`
exists, its CSV rows, and the fetch oracle. -/
structure Env where
  inputExists : Bool
  rows : List (List Str)
  world : World

/-- How a run of `main` ends: the missing-input early return (error message
printed, no output file ever opened), an uncaught exception escaping
`main` (traceback, no output file written), or the summary artifact
written. -/
inductive RunResult where
  | inputMissing : RunResult
  | crashed : PyErr → RunResult
  | wrote : Table → RunResult
deriving DecidableEq

/-- Embeds `main` (src/scraper.py lines 69-112); named `mainRun` because
Lean reserves the top-level name `main` for executables. -/
def mainRun (env : Env) : RunResult :=
  if env.inputExists then
    match processTerms env.world (termsOf env.rows) [] with
    | .error e => .crashed e
    | .ok summary => .wrote (buildTable summary)
  else .inputMissing

/-- Modelled from the spec: the `DateKeyNormalizer` calendar-date reading
of a sold-date text (the scraper itself keeps raw date strings; the spec's
date keys are calendar dates obtained by lenient parsing).  Reads the
marketplace's `"Mon D, YYYY"` rendering into `(year, month, day)`. -/
def parseDateKey (s : Str) : Option (ℕ × ℕ × ℕ) :=
  match splitWs s with
  | [m, d, y] =>
    match monthNum m with
    | none => none
    | some mn =>
      let dd := d.filter (fun c => decide (c ≠ ','))
      if !dd.isEmpty && dd.all Char.isDigit && !y.isEmpty && y.all Char.isDigit then
        some (digitsVal y, mn, digitsVal dd)
      else none
  | _ => none
where
  monthNum (m : Str) : Option ℕ :=
    if m = chars "Jan" then some 1 else if m = chars "Feb" then some 2
    else if m = chars "Mar" then some 3 else if m = chars "Apr" then some 4
    else if m = chars "May" then some 5 else if m = chars "Jun" then some 6
    else if m = chars "Jul" then some 7 else if m = chars "Aug" then some 8
    else if m = chars "Sep" then some 9 else if m = chars "Oct" then some 10
    else if m = chars "Nov" then some 11 else if m = chars "Dec" then some 12
    else none

/-- Chronological key of a parsed `(year, month, day)` calendar date. -/
def dateVal (d : ℕ × ℕ × ℕ) : ℕ := d.1 * 10000 + d.2.1 * 100 + d.2.2

/-- Invariant of the accumulator: every materialized price is strictly
between 10 and 900. -/
def dictInv (dc : Dict) : Prop := ∀ e ∈ dc, ∀ p ∈ e.2, 10 < p ∧ p < 900

/-- A listing that parses cleanly and is admitted for the term `ryzen`. -/
def goodItem : Item :=
  { titleTag := some (chars "AMD Ryzen CPU"), priceTag := some (chars "$100.00"),
    dateTag := some (chars "Sold  Dec 3, 2023"),
    linkAttr := some (chars "https://x/item?foo"), subtitleTag := none }

/-- A listing whose required title element is absent. -/
def noTitleItem : Item :=
  { titleTag := none, priceTag := some (chars "$50.00"),
    dateTag := some (chars "Sold  Dec 3, 2023"),
    linkAttr := some (chars "https://x/item?foo"), subtitleTag := none }

/-- A listing whose price text is not numeric. -/
def badPriceItem : Item :=
  { titleTag := some (chars "AMD Ryzen CPU"), priceTag := some (chars "see description"),
    dateTag := some (chars "Sold  Dec 3, 2023"),
    linkAttr := some (chars "https://x/item?foo"), subtitleTag := none }

/-- A world whose first page holds one good listing and whose later pages
lack the results container. -/
def wOneGood : World :=
  fun _ p => if p = 1 then Except.ok (some [goodItem]) else Except.ok none

/-- A world where page 3 lacks the results container and every other page
is present but empty. -/
def wSkipThree : World :=
  fun _ p => if p = 3 then Except.ok none else Except.ok (some [])

/-- A world where every page is present but empty. -/
def wAllEmpty : World := fun _ _ => Except.ok (some [])

/-- An environment whose input file exists but whose every fetch raises a
transport error. -/
def envCrash : Env :=
  { inputExists := true, rows := [[chars "ryzen"]],
    world := fun _ _ => Except.error PyErr.requestError }

/-- Two finalized terms whose raw date keys sort lexicographically against
calendar order. -/
def cexSummary : List (Str × List (Str × ℚ)) :=
  [(chars "term a", [(chars "Dec 3, 2023", 100)]),
   (chars "term b", [(chars "Apr 1, 2024", 200)])]

/-! Helper lemmas. -/

lemma splitWsAux_mem_decompose (cs : Str) :
    ∀ (acc t : Str), t ∈ splitWsAux cs acc → ∃ l r, acc.reverse ++ cs = l ++ t ++ r := by
  induction cs with
  | nil =>
    intro acc t ht
    cases acc with
    | nil => simp [splitWsAux] at ht
    | cons a as =>
      simp [splitWsAux] at ht
      exact ⟨[], [], by simp [ht]⟩
  | cons c cs ih =>
    intro acc t ht
    by_cases hw : c.isWhitespace
    · cases acc with
      | nil =>
        simp only [splitWsAux, hw, if_true] at ht
        obtain ⟨l, r, hl⟩ := ih [] t ht
        exact ⟨c :: l, r, by simp at hl; simp [hl]⟩
      | cons a as =>
        simp only [splitWsAux, hw, if_true, List.mem_cons] at ht
        rcases ht with ht | ht
        · exact ⟨[], c :: cs, by simp [ht]⟩
        · obtain ⟨l, r, hl⟩ := ih [] t ht
          refine ⟨(a :: as).reverse ++ c :: l, r, ?_⟩
          simp at hl
          simp [hl, List.append_assoc]
    · simp only [splitWsAux, hw, if_false] at ht
      obtain ⟨l, r, hl⟩ := ih (c :: acc) t ht
      refine ⟨l, r, ?_⟩
      rw [List.reverse_cons, List.append_assoc] at hl
      simpa using hl

lemma splitWs_mem_decompose {s t : Str} (h : t ∈ splitWs s) :
    ∃ l r, s = l ++ t ++ r := by
  have := splitWsAux_mem_decompose s [] t h
  simpa using this

lemma hasTo_cons_of (c : Char) {rest : Str} (h : hasTo rest = true) :
    hasTo (c :: rest) = true := by
  simp [hasTo, h]

lemma hasTo_append_toTok (l m : Str) : hasTo (l ++ 't' :: 'o' :: m) = true := by
  induction l with
  | nil => rfl
  | cons a l ih => exact hasTo_cons_of a ih

lemma hasTo_of_toTok_mem_splitWs {s : Str} (h : toTok ∈ splitWs s) :
    hasTo s = true := by
  obtain ⟨l, r, hl⟩ := splitWs_mem_decompose h
  subst hl
  rw [List.append_assoc]
  exact hasTo_append_toTok l r

lemma parseFloat_toTok : parseFloat toTok = .error .valueError := by decide

lemma ne_toTok_of_parseFloat_ok {t : Str} {v : ℚ} (h : parseFloat t = .ok v) :
    t ≠ toTok := by
  intro he
  rw [he, parseFloat_toTok] at h
  exact absurd h (by simp)

lemma strLeB_total : ∀ a b : Str, strLeB a b = true ∨ strLeB b a = true := by
  intro a
  induction a with
  | nil => intro b; left; rfl
  | cons x xs ih =>
    intro b
    cases b with
    | nil => right; rfl
    | cons y ys =>
      rcases lt_trichotomy x y with h | h | h
      · left; simp [strLeB, h]
      · subst h
        rcases ih ys with h2 | h2
        · left; simp [strLeB, lt_irrefl, h2]
        · right; simp [strLeB, lt_irrefl, h2]
      · right; simp [strLeB, h]

lemma strLeB_trans : ∀ a b c : Str, strLeB a b = true → strLeB b c = true →
    strLeB a c = true := by
  intro a
  induction a with
  | nil => intro b c _ _; rfl
  | cons x xs ih =>
    intro b c hab hbc
    cases b with
    | nil => simp [strLeB] at hab
    | cons y ys =>
      cases c with
      | nil => simp [strLeB] at hbc
      | cons z zs =>
        by_cases hxy : x < y
        · by_cases hyz : y < z
          · simp [strLeB, lt_trans hxy hyz]
          · by_cases hzy : z < y
            · simp [strLeB, hyz, hzy] at hbc
            · have he : y = z := le_antisymm (not_lt.mp hzy) (not_lt.mp hyz)
              subst he
              simp [strLeB, hxy]
        · by_cases hyx : y < x
          · simp [strLeB, hxy, hyx] at hab
          · have he : x = y := le_antisymm (not_lt.mp hyx) (not_lt.mp hxy)
            subst he
            simp only [strLeB, lt_irrefl, if_false] at hab
            by_cases hxz : x < z
            · simp [strLeB, hxz]
            · by_cases hzx : z < x
              · simp [strLeB, hxz, hzx] at hbc
              · have he2 : x = z := le_antisymm (not_lt.mp hzx) (not_lt.mp hxz)
                subst he2
                simp only [strLeB, lt_irrefl, if_false] at hbc ⊢
                exact ih ys zs hab hbc

instance : IsTotal Str StrLe := ⟨strLeB_total⟩

instance : IsTrans Str StrLe := ⟨strLeB_trans⟩

lemma lookupD_insertPrice_self (dict : Dict) (d : Str) (p : ℚ) :
    lookupD (insertPrice dict d p) d = some ((lookupD dict d).getD [] ++ [p]) := by
  induction dict with
  | nil => simp [insertPrice, lookupD]
  | cons kv rest ih =>
    obtain ⟨k, ps⟩ := kv
    by_cases hk : k = d
    · subst hk
      simp [insertPrice, lookupD]
    · simp [insertPrice, lookupD, hk, ih]

lemma lookupD_insertPrice_ne (dict : Dict) {d2 d : Str} (p : ℚ) (h : d ≠ d2) :
    lookupD (insertPrice dict d2 p) d = lookupD dict d := by
  induction dict with
  | nil => simp [insertPrice, lookupD, Ne.symm h]
  | cons kv rest ih =>
    obtain ⟨k, ps⟩ := kv
    by_cases hk : k = d2
    · subst hk
      simp [insertPrice, lookupD, Ne.symm h]
    · simp only [insertPrice, if_neg hk]
      by_cases hkd : k = d
      · simp [lookupD, hkd]
      · simp [lookupD, hkd, ih]

lemma pricesOf_cons (o : Str × ℚ) (obs : List (Str × ℚ)) (d : Str) :
    pricesOf (o :: obs) d =
      if o.1 = d then o.2 :: pricesOf obs d else pricesOf obs d := by
  by_cases h : o.1 = d <;> simp [pricesOf, List.filter, h]

lemma lookupD_accumObs_getD (obs : List (Str × ℚ)) :
    ∀ (dict : Dict) (d : Str),
      (lookupD (accumObs obs dict) d).getD [] =
        (lookupD dict d).getD [] ++ pricesOf obs d := by
  induction obs with
  | nil => intro dict d; simp [accumObs, pricesOf]
  | cons o obs ih =>
    intro dict d
    have hstep : accumObs (o :: obs) dict = accumObs obs (insertPrice dict o.1 o.2) := rfl
    rw [hstep, ih, pricesOf_cons]
    by_cases h : o.1 = d
    · subst h
      rw [lookupD_insertPrice_self]
      simp
    · rw [lookupD_insertPrice_ne dict o.2 (fun he => h he.symm), if_neg h]

lemma lookupD_accumObs_none (obs : List (Str × ℚ)) :
    ∀ (dict : Dict) (d : Str),
      lookupD (accumObs obs dict) d = none ↔
        (lookupD dict d = none ∧ pricesOf obs d = []) := by
  induction obs with
  | nil => intro dict d; simp [accumObs, pricesOf]
  | cons o obs ih =>
    intro dict d
    have hstep : accumObs (o :: obs) dict = accumObs obs (insertPrice dict o.1 o.2) := rfl
    rw [hstep, ih, pricesOf_cons]
    by_cases h : o.1 = d
    · subst h
      rw [lookupD_insertPrice_self]
      simp
    · rw [lookupD_insertPrice_ne dict o.2 (fun he => h he.symm), if_neg h]

lemma lookupD_accumObs_of_ne_nil {obs : List (Str × ℚ)} {d : Str}
    (h : pricesOf obs d ≠ []) :
    lookupD (accumObs obs []) d = some (pricesOf obs d) := by
  cases hl : lookupD (accumObs obs []) d with
  | none =>
    rcases (lookupD_accumObs_none obs [] d).mp hl with ⟨_, h2⟩
    exact absurd h2 h
  | some ps =>
    have := lookupD_accumObs_getD obs [] d
    rw [hl] at this
    simp [lookupD] at this
    rw [this]

lemma lookupD_dailyAverages (dict : Dict) (d : Str) :
    lookupD (dailyAverages dict) d =
      (lookupD dict d).map (fun ps => round2 (ps.sum / (ps.length : ℚ))) := by
  induction dict with
  | nil => simp [dailyAverages, lookupD]
  | cons kv rest ih =>
    obtain ⟨k, ps⟩ := kv
    by_cases hk : k = d
    · simp [dailyAverages, lookupD, hk]
    · simpa [dailyAverages, lookupD, hk] using ih

lemma dictInv_insertPrice {dc : Dict} {d : Str} {p : ℚ} (h : dictInv dc)
    (h1 : 10 < p) (h2 : p < 900) : dictInv (insertPrice dc d p) := by
  induction dc with
  | nil =>
    intro e he q hq
    simp [insertPrice] at he
    subst he
    simp at hq
    subst hq
    exact ⟨h1, h2⟩
  | cons kv rest ih =>
    obtain ⟨k, ps⟩ := kv
    intro e he q hq
    by_cases hk : k = d
    · rw [show insertPrice ((k, ps) :: rest) d p = (k, ps ++ [p]) :: rest by
        simp [insertPrice, hk]] at he
      rcases List.mem_cons.mp he with he | he
      · subst he
        simp only [List.mem_append, List.mem_singleton] at hq
        rcases hq with hq | hq
        · exact h (k, ps) (List.mem_cons_self _ _) q hq
        · subst hq; exact ⟨h1, h2⟩
      · exact h e (List.mem_cons_of_mem _ he) q hq
    · rw [show insertPrice ((k, ps) :: rest) d p = (k, ps) :: insertPrice rest d p by
        simp [insertPrice, hk]] at he
      rcases List.mem_cons.mp he with he | he
      · subst he; exact h (k, ps) (List.mem_cons_self _ _) q hq
      · exact ih (fun e2 he2 => h e2 (List.mem_cons_of_mem _ he2)) e he q hq

lemma tryItem_ok_inv {kw : List Str} {item : Item} {dict dict2 : Dict}
    (h : tryItem kw item dict = .ok dict2) (hd : dictInv dict) : dictInv dict2 := by
  unfold tryItem at h
  split at h
  · exact absurd h (by simp)
  · split at h
    · split at h
      · exact absurd h (by simp)
      · split at h
        · rename_i price_value _ hb
          injection h with h
          subst h
          exact dictInv_insertPrice hd hb.1 hb.2
        · injection h with h
          subst h
          exact hd
    · injection h with h
      subst h
      exact hd

lemma handleItem_ok_inv {kw : List Str} {item : Item} {dict dict2 : Dict}
    (h : handleItem kw item dict = .ok dict2) (hd : dictInv dict) : dictInv dict2 := by
  unfold handleItem at h
  split at h
  · injection h with h
    subst h
    exact hd
  · exact absurd h (by simp)
  · rename_i d3 htry
    injection h with h
    subst h
    exact tryItem_ok_inv htry hd

lemma processItems_ok_inv {kw : List Str} :
    ∀ {items : List Item} {dict dict2 : Dict},
      processItems kw items dict = .ok dict2 → dictInv dict → dictInv dict2 := by
  intro items
  induction items with
  | nil =>
    intro dict dict2 h hd
    injection h with h
    subst h
    exact hd
  | cons item rest ih =>
    intro dict dict2 h hd
    unfold processItems at h
    split at h
    · exact absurd h (by simp)
    · rename_i d3 hstep
      exact ih h (handleItem_ok_inv hstep hd)

lemma pageStep_ok_inv {world : World} {kw : List Str} {dict dict2 : Dict} {p : ℕ}
    (h : pageStep world kw dict p = .ok dict2) (hd : dictInv dict) : dictInv dict2 := by
  unfold pageStep at h
  split at h
  · exact absurd h (by simp)
  · injection h with h
    subst h
    exact hd
  · exact processItems_ok_inv h hd

lemma pagesLoop_ok_inv {world : World} {kw : List Str} :
    ∀ {pages : List ℕ} {dict dict2 : Dict},
      pagesLoop world kw pages dict = .ok dict2 → dictInv dict → dictInv dict2 := by
  intro pages
  induction pages with
  | nil =>
    intro dict dict2 h hd
    injection h with h
    subst h
    exact hd
  | cons p rest ih =>
    intro dict dict2 h hd
    unfold pagesLoop at h
    split at h
    · exact absurd h (by simp)
    · rename_i d3 hstep
      exact ih h (pageStep_ok_inv hstep hd)

lemma pagesLoop_all_none {world : World} {kw : List Str} :
    ∀ {pages : List ℕ}, (∀ p ∈ pages, world kw p = .ok none) →
      ∀ dict, pagesLoop world kw pages dict = .ok dict := by
  intro pages
  induction pages with
  | nil => intro _ dict; rfl
  | cons p rest ih =>
    intro h dict
    have h1 : pageStep world kw dict p = .ok dict := by
      unfold pageStep fetch_listings
      rw [h p (List.mem_cons_self _ _)]
    unfold pagesLoop
    rw [h1]
    exact ih (fun q hq => h q (List.mem_cons_of_mem _ hq)) dict

lemma pagesLoop_congr {w1 w2 : World} {kw : List Str} :
    ∀ {pages : List ℕ},
      (∀ p ∈ pages, ∀ dc : Dict, pageStep w1 kw dc p = pageStep w2 kw dc p) →
      ∀ dict, pagesLoop w1 kw pages dict = pagesLoop w2 kw pages dict := by
  intro pages
  induction pages with
  | nil => intro _ dict; rfl
  | cons p rest ih =>
    intro h dict
    unfold pagesLoop
    rw [h p (List.mem_cons_self _ _) dict]
    cases pageStep w2 kw dict p with
    | error e => rfl
    | ok d2 => exact ih (fun q hq => h q (List.mem_cons_of_mem _ hq)) d2

lemma process_price_to_branch {s : Str} {total : ℚ}
    (h1 : hasTo (stripMoney s) = true)
    (h2 : sumFloats ((splitWs (stripMoney s)).filter (fun t => decide (t ≠ toTok))) =
      .ok total) :
    process_price s = .ok (round2 (total / 2)) := by
  simp only [process_price, h1, h2, if_true]

lemma range13_le : ∀ p ∈ List.range' 1 13, p ≤ 13 := by decide

/-! Claim theorems. -/

/-- C1 (counterexample): the claim that a per-page fetch failure is
recovered locally and never terminates the term's run is false as stated —
`fetch_listings` is called outside any `try`, so a raised transport error
propagates out of `scrape_ebay_for_term` and terminates the run at the
first failing page. -/
theorem claim1_counterexample :
    scrape_ebay_for_term (fun _ _ => Except.error PyErr.requestError)
      (chars "ryzen") [] = Except.error PyErr.requestError := by
  decide

/-- C1 (amended): only the malformed-response kind of fetch failure is
recovered locally — a fetched page whose parse lacks the results container
contributes zero listings and the term continues (a run all of whose pages
are such leaves the dict unchanged and succeeds); a fetch that raises a
transport error terminates the term's run with that error. -/
theorem claim1_amended (world : World) (term : Str) (dict : Dict) :
    ((∀ p : ℕ, world (splitWs (pyLower term)) p = Except.ok none) →
        scrape_ebay_for_term world term dict = Except.ok dict) ∧
    (∀ e : PyErr, world (splitWs (pyLower term)) 1 = Except.error e →
        scrape_ebay_for_term world term dict = Except.error e) := by
  constructor
  · intro h
    exact pagesLoop_all_none (fun p _ => h p) dict
  · intro e he
    show pagesLoop world (splitWs (pyLower term)) (List.range' 1 13) dict =
      Except.error e
    have hr : List.range' 1 13 = 1 :: List.range' 2 12 := by decide
    rw [hr]
    unfold pagesLoop
    have h1 : pageStep world (splitWs (pyLower term)) dict 1 = Except.error e := by
      unfold pageStep fetch_listings
      rw [he]
    rw [h1]

/-- C1 (witness): a term all of whose 13 pages come back without the
results container finishes with an unchanged, empty dict. -/
theorem claim1_witness :
    scrape_ebay_for_term (fun _ _ => Except.ok none) (chars "ryzen") [] =
      Except.ok [] :=
  (claim1_amended (fun _ _ => Except.ok none) (chars "ryzen") []).1 (fun _ => rfl)

/-- C2 (counterexample): the claim that a listing with an absent required
field is skipped and never aborts the page is false — the `try` block
catches only `ValueError`, and a missing title raises `AttributeError`,
which aborts the page (the following good listing, which alone would have
contributed an observation, is never processed). -/
theorem claim2_counterexample :
    processItems [chars "ryzen"] [noTitleItem, goodItem] [] =
      Except.error PyErr.attributeError ∧
    processItems [chars "ryzen"] [goodItem] [] =
      Except.ok [(chars "Dec 3, 2023", [(100 : ℚ)])] :=
  ⟨by decide, by decide⟩

/-- C2 (amended): the per-listing recovery covers exactly `ValueError`: a
listing whose fields are all present but whose price text fails numeric
normalization is skipped and the remaining listings of the page are
processed as if it were absent; a listing with an absent required field
instead raises an uncaught error. -/
theorem claim2_amended (kw : List Str) (item : Item) (rest : List Item)
    (dict : Dict) (t p d l c : Str)
    (hparse : parse_listing item = .ok (t, p, d, l, c))
    (hprice : process_price p = .error PyErr.valueError) :
    processItems kw (item :: rest) dict = processItems kw rest dict := by
  have hh : handleItem kw item dict = .ok dict := by
    unfold handleItem tryItem
    rw [hparse]
    by_cases hv : is_valid_title t kw
    · simp [hv, hprice]
    · simp [hv]
  simp [processItems, hh]

/-- C2 (witness): a listing with non-numeric price text is skipped and the
page continues with its remaining listings. -/
theorem claim2_witness :
    processItems [chars "ryzen"] [badPriceItem, goodItem] [] =
      processItems [chars "ryzen"] [goodItem] [] :=
  claim2_amended [chars "ryzen"] badPriceItem [goodItem] []
    (chars "amd ryzen cpu") (chars "see description") (chars "Dec 3, 2023")
    (chars "https://x/item") (chars "Unknown") (by decide) (by decide)

/-- C3 (counterexample): the claim that the assembled columns are ordered
ascending chronologically is false — the column keys are raw date strings
and `sorted` orders them lexicographically, so `"Apr 1, 2024"` (code point
`A`) is placed before `"Dec 3, 2023"` even though it is the later calendar
date. -/
theorem claim3_counterexample :
    allDates cexSummary = [chars "Apr 1, 2024", chars "Dec 3, 2023"] ∧
    parseDateKey (chars "Dec 3, 2023") = some (2023, 12, 3) ∧
    parseDateKey (chars "Apr 1, 2024") = some (2024, 4, 1) ∧
    dateVal (2023, 12, 3) < dateVal (2024, 4, 1) :=
  ⟨by decide, by decide, by decide, by decide⟩

/-- C3 (amended): the assembled table's column set is exactly the
deduplicated union of all terms' raw date-text keys, sorted ascending in
lexicographic string order (no chronological guarantee — the downstream
consumer re-sorts by parsed date). -/
theorem claim3_amended (summary : List (Str × List (Str × ℚ))) :
    (buildTable summary).header = chars "CPU Name" :: allDates summary ∧
    List.Sorted StrLe (allDates summary) ∧
    (allDates summary).Nodup ∧
    (∀ d : Str, d ∈ allDates summary ↔ ∃ e ∈ summary, d ∈ e.2.map Prod.fst) := by
  refine ⟨rfl, List.sorted_insertionSort StrLe _, ?_, ?_⟩
  · exact (List.perm_insertionSort StrLe _).symm.nodup (List.nodup_dedup _)
  · intro d
    rw [show allDates summary =
        List.insertionSort StrLe (summary.flatMap (fun e => e.2.map Prod.fst)).dedup
      from rfl,
      (List.perm_insertionSort StrLe _).mem_iff, List.mem_dedup, List.mem_flatMap]

/-- C3 (witness): the column list of a concrete two-term summary is sorted
in the string order. -/
theorem claim3_witness : List.Sorted StrLe (allDates cexSummary) :=
  (claim3_amended cexSummary).2.1

/-- C4: a price text whose stripped form splits into two numeric endpoint
tokens around the token `to` normalizes to the arithmetic mean of the two
endpoints, rounded to 2 decimal places. -/
theorem claim4_range_mean (s a b : Str) (va vb : ℚ)
    (hsplit : splitWs (stripMoney s) = [a, toTok, b])
    (ha : parseFloat a = .ok va) (hb : parseFloat b = .ok vb) :
    process_price s = .ok (round2 ((va + vb) / 2)) := by
  have hmem : toTok ∈ splitWs (stripMoney s) := by rw [hsplit]; simp
  have h1 : hasTo (stripMoney s) = true := hasTo_of_toTok_mem_splitWs hmem
  have hfil : (splitWs (stripMoney s)).filter (fun t => decide (t ≠ toTok)) = [a, b] := by
    rw [hsplit]
    simp [List.filter, ne_toTok_of_parseFloat_ok ha, ne_toTok_of_parseFloat_ok hb]
  have h2 : sumFloats ((splitWs (stripMoney s)).filter (fun t => decide (t ≠ toTok))) =
      .ok (va + vb) := by
    rw [hfil]
    simp [sumFloats, ha, hb]
  exact process_price_to_branch h1 h2

/-- C4 (witness): `"$10.00 to $20.00"` normalizes to `15.0`. -/
theorem claim4_witness : process_price (chars "$10.00 to $20.00") = .ok 15 := by
  have h := claim4_range_mean (chars "$10.00 to $20.00") (chars "10.00")
    (chars "20.00") 10 20 (by decide) (by decide) (by decide)
  rw [h]
  decide

/-- C5: the validator admits a title iff every keyword of the term occurs
as an exact standalone whitespace token of it; in particular
`"amd ryzen 5 3600"` is admitted for term `"ryzen 5"`, `"ryzen"` is
rejected for it, and a title carrying `"ryzen5"` as one token is
rejected. -/
theorem claim5_standalone_tokens :
    (∀ (title : Str) (kws : List Str),
        is_valid_title title kws = true ↔ ∀ kw ∈ kws, kw ∈ splitWs title) ∧
    is_valid_title (chars "amd ryzen 5 3600") (splitWs (pyLower (chars "ryzen 5"))) = true ∧
    is_valid_title (chars "ryzen") (splitWs (pyLower (chars "ryzen 5"))) = false ∧
    is_valid_title (chars "amd ryzen5 3600") (splitWs (pyLower (chars "ryzen 5"))) = false := by
  refine ⟨?_, by decide, by decide, by decide⟩
  intro title kws
  simp [is_valid_title, List.all_eq_true]

/-- C5 (witness): one concrete admission through the token criterion. -/
theorem claim5_witness : is_valid_title (chars "amd ryzen 5 3600") [chars "amd"] = true :=
  (claim5_standalone_tokens.1 (chars "amd ryzen 5 3600") [chars "amd"]).mpr (by decide)

/-- C6: every observation the scraper materializes in a term's accumulator
has price strictly between 10 and 900 — whenever `scrape_ebay_for_term`
completes on a dict all of whose prices satisfy the bounds, every price of
the resulting dict satisfies them too (prices outside the bounds are never
appended). -/
theorem claim6_price_bounds (world : World) (term : Str) (dict dict2 : Dict)
    (h : scrape_ebay_for_term world term dict = Except.ok dict2)
    (hd : dictInv dict) : dictInv dict2 := by
  unfold scrape_ebay_for_term at h
  exact pagesLoop_ok_inv h hd

/-- C6 (witness): scraping one admitted $100 listing from an empty dict
yields a dict whose every price obeys the bounds. -/
theorem claim6_witness : dictInv [(chars "Dec 3, 2023", [(100 : ℚ)])] :=
  claim6_price_bounds wOneGood (chars "ryzen") [] _ (by decide)
    (fun e he => absurd he (List.not_mem_nil e))

/-- C7 (counterexample): the claim that finalization yields exactly the
arithmetic mean is false — the code rounds the mean to 2 decimal places,
so three same-day observations 11, 11, 12 finalize to 11.33, not to their
exact mean 34/3. -/
theorem claim7_counterexample :
    dailyAverages (accumObs
        [(chars "2024-01-05", 11), (chars "2024-01-05", 11), (chars "2024-01-05", 12)] []) =
      [(chars "2024-01-05", 1133 / 100)] ∧
    ((1133 : ℚ) / 100) ≠ ((11 : ℚ) + 11 + 12) / 3 :=
  ⟨by decide, by decide⟩

/-- C7 (amended): for every date key carrying at least one admitted
observation, finalization yields the arithmetic mean of that date's
admitted prices rounded to 2 decimal places; a term with zero admitted
observations finalizes to an empty mapping rather than an error. -/
theorem claim7_amended (obs : List (Str × ℚ)) (d : Str)
    (h : pricesOf obs d ≠ []) :
    lookupD (dailyAverages (accumObs obs [])) d =
      some (round2 ((pricesOf obs d).sum / ((pricesOf obs d).length : ℚ))) ∧
    dailyAverages (accumObs [] []) = [] := by
  refine ⟨?_, rfl⟩
  rw [lookupD_dailyAverages, lookupD_accumObs_of_ne_nil h]
  rfl

/-- C7 (witness): the spec's own example — observations
(2024-01-01, 100), (2024-01-01, 200), (2024-01-02, 50) finalize to 150.0
on the first date. -/
theorem claim7_witness :
    lookupD (dailyAverages (accumObs
        [(chars "2024-01-01", 100), (chars "2024-01-01", 200), (chars "2024-01-02", 50)] []))
      (chars "2024-01-01") = some 150 := by
  have h := (claim7_amended
    [(chars "2024-01-01", (100 : ℚ)), (chars "2024-01-01", 200), (chars "2024-01-02", 50)]
    (chars "2024-01-01") (by decide)).1
  rw [h]
  decide

/-- C8 (counterexample): the claim that input-file absence is the only
granularity at which the run aborts is false — with the input file present,
a raised transport error on the very first page escapes `main` uncaught and
aborts the whole run (with no output artifact) as well. -/
theorem claim8_counterexample :
    envCrash.inputExists = true ∧
    mainRun envCrash = RunResult.crashed PyErr.requestError :=
  ⟨rfl, by decide⟩

/-- C8 (amended): if the input term-list file is absent, the run fails
fatally with the reported error and no output artifact is produced; this
is however not the only aborting granularity, since an uncaught exception
while scraping also aborts the run before the artifact is written. -/
theorem claim8_amended (env : Env) (h : env.inputExists = false) :
    mainRun env = RunResult.inputMissing := by
  unfold mainRun
  rw [h]
  rfl

/-- C8 (witness): a concrete run without the input file ends at the
missing-input early return. -/
theorem claim8_witness :
    mainRun { inputExists := false, rows := [], world := fun _ _ => Except.ok none } =
      RunResult.inputMissing :=
  claim8_amended { inputExists := false, rows := [], world := fun _ _ => Except.ok none } rfl

/-- C9: a page whose results container is absent is recovered as zero
observations and never raised to the orchestrator — such a page behaves
identically to a present-but-empty page, and a run whose pages 1 through 13
all lack the container completes with the dict unchanged (pages beyond the
fixed 13-page bound are never consulted). -/
theorem claim9_container_absent (w1 w2 : World) (term : Str) (dict : Dict) (p0 : ℕ)
    (hagree : ∀ kw p, p ≠ p0 → w1 kw p = w2 kw p)
    (habsent : ∀ kw, w1 kw p0 = Except.ok none)
    (hempty : ∀ kw, w2 kw p0 = Except.ok (some [])) :
    scrape_ebay_for_term w1 term dict = scrape_ebay_for_term w2 term dict ∧
    (∀ w3 : World, (∀ kw p, p ≤ 13 → w3 kw p = Except.ok none) →
        scrape_ebay_for_term w3 term dict = Except.ok dict) := by
  constructor
  · unfold scrape_ebay_for_term
    refine pagesLoop_congr (fun p _ dc => ?_) dict
    by_cases hp : p = p0
    · subst hp
      unfold pageStep fetch_listings
      rw [habsent, hempty]
      rfl
    · unfold pageStep fetch_listings
      rw [hagree _ p hp]
  · intro w3 h3
    exact pagesLoop_all_none (fun p hp => h3 _ p (range13_le p hp)) dict

/-- C9 (witness): a run where page 3 lacks the container equals the run
where page 3 is present but empty. -/
theorem claim9_witness :
    scrape_ebay_for_term wSkipThree (chars "ryzen") [] =
      scrape_ebay_for_term wAllEmpty (chars "ryzen") [] :=
  (claim9_container_absent wSkipThree wAllEmpty (chars "ryzen") [] 3
    (fun kw p hp => by simp [wSkipThree, wAllEmpty, hp])
    (fun kw => rfl) (fun kw => rfl)).1

/-- C10: for every price text whose stripped form contains the substring
`to`, the normalizer returns half the sum of all whitespace tokens other
than `to` (rounded to 2 decimal places), however many numeric tokens there
are — not a mean of two endpoints. -/
theorem claim10_half_sum (s : Str) (total : ℚ)
    (h1 : hasTo (stripMoney s) = true)
    (h2 : sumFloats ((splitWs (stripMoney s)).filter (fun t => decide (t ≠ toTok))) =
      .ok total) :
    process_price s = .ok (round2 (total / 2)) :=
  process_price_to_branch h1 h2

/-- C10 (witness): the three-price text `"$10 to $20 to $30"` yields half
the sum of all three numbers, 30.0 — not the 20.0 endpoint midpoint. -/
theorem claim10_witness : process_price (chars "$10 to $20 to $30") = .ok 30 := by
  have h := claim10_half_sum (chars "$10 to $20 to $30") 60 (by decide) (by decide)
  rw [h]
  decide
